import Mathlib

/-!
# ZedStore per-attribute B+-tree: verification of the core storage routines

A shallow embedding of the ZedStore column-store engine
(`src/backend/access/zedstore/zedstore_btree.c`,
`src/backend/access/zedstore/zedstore_visibility.c`,
`src/backend/access/zedstore/zedstore_meta.c`,
`src/include/access/zedstore_internal.h`).

Machine integers are modelled as `Nat`; the 48-bit TID arithmetic never
overflows a `uint64` for valid inputs, and where a C cast can truncate
(`BlockNumber`, `OffsetNumber` in `ItemPointerFromZSTid`) the reduction
modulo `2^32` / `2^16` is written out explicitly.  Datums are modelled at
element granularity (`Datum := Nat`); byte-level payload walks over packed
arrays become `List.take`/`List.drop` over the element list, with the
per-datum size function (`zsbt_compute_data_size`) kept abstract as a
parameter where sizes matter.
-/

namespace ZedStore

/-- An abstract datum.  Payload walks are modelled at element granularity. -/
abbrev Datum := Nat

/-- Model of `ZSUndoRecPtr` (zedstore_undo.h): a 64-bit monotonically increasing
counter addressing a record in the UNDO log. -/
structure ZSUndoRecPtr where
  counter : Nat
deriving Repr, DecidableEq

/-- Model of `InvalidZSTid` (zedstore_internal.h line 27): TID 0 is reserved. -/
def InvalidZSTid : Nat := 0

/-- Model of `MinZSTid` (zedstore_internal.h line 28): block 0, offset 1. -/
def MinZSTid : Nat := 1

/-- Model of `MaxZSTidOffsetNumber` (zedstore_internal.h line 33). -/
def MaxZSTidOffsetNumber : Nat := 129

/-- PostgreSQL `MaxBlockNumber` = 0xFFFFFFFE (block.h). -/
def MaxBlockNumber : Nat := 0xFFFFFFFE

/-- Model of `ZSTidFromBlkOff` (zedstore_internal.h lines 35-41):
`(uint64) blk * (MaxZSTidOffsetNumber - 1) + off`, in `uint64` arithmetic. -/
def ZSTidFromBlkOff (blk off : Nat) : Nat :=
  (blk * (MaxZSTidOffsetNumber - 1) + off) % 2 ^ 64

/-- Model of `ItemPointerFromZSTid` (zedstore_internal.h lines 51-64): the block part,
`(tid - 1) / (MaxZSTidOffsetNumber - 1)` truncated to `BlockNumber` (uint32). -/
def ItemPointerBlkFromZSTid (tid : Nat) : Nat :=
  ((tid - 1) / (MaxZSTidOffsetNumber - 1)) % 2 ^ 32

/-- Model of `ItemPointerFromZSTid` (zedstore_internal.h lines 51-64): the offset part,
`(tid - 1) % (MaxZSTidOffsetNumber - 1) + 1` truncated to `OffsetNumber`
(uint16). -/
def ItemPointerOffFromZSTid (tid : Nat) : Nat :=
  ((tid - 1) % (MaxZSTidOffsetNumber - 1) + 1) % 2 ^ 16

/-- Model of `ZSTidFromItemPointer` (zedstore_internal.h lines 43-49): converts an item
pointer back to a TID via `ZSTidFromBlkOff`. -/
def ZSTidFromItemPointer (blk off : Nat) : Nat :=
  ZSTidFromBlkOff blk off

/-! ## Tuple-lock modes (zedstore_visibility.c) -/

/-- PostgreSQL `LockTupleMode` (lockoptions.h), in declaration order. -/
inductive LockTupleMode where
  | lockTupleKeyShare
  | lockTupleShare
  | lockTupleNoKeyExclusive
  | lockTupleExclusive
deriving Repr, DecidableEq

/-- The numeric value of each `LockTupleMode` enumerator (its position in the
C enum declaration: KeyShare = 0, Share = 1, NoKeyExclusive = 2,
Exclusive = 3). -/
def lockTupleModeNumber : LockTupleMode → Nat
  | .lockTupleKeyShare => 0
  | .lockTupleShare => 1
  | .lockTupleNoKeyExclusive => 2
  | .lockTupleExclusive => 3

/-- Model of `zs_tuplelock_compatible` (zedstore_visibility.c lines 292-314): is a held
lock of mode `mode` compatible with a new request of mode `newmode`? -/
def zs_tuplelock_compatible (mode newmode : LockTupleMode) : Bool :=
  match newmode with
  | .lockTupleKeyShare =>
      mode == .lockTupleKeyShare ||
      mode == .lockTupleShare ||
      mode == .lockTupleNoKeyExclusive
  | .lockTupleShare =>
      mode == .lockTupleKeyShare ||
      mode == .lockTupleShare
  | .lockTupleNoKeyExclusive =>
      mode == .lockTupleKeyShare
  | .lockTupleExclusive => false

/-! ## Leaf items (zedstore_internal.h lines 150-261) -/

/-- The per-item flag bits `ZSBT_NULL`, `ZSBT_DEAD`, `ZSBT_DELETED`,
`ZSBT_UPDATED` of `t_flags` (the `ZSBT_COMPRESSED` and `ZSBT_ARRAY` bits are
represented by the constructor of `ZSItem`). -/
structure ZSFlags where
  isnull : Bool
  dead : Bool
  deleted : Bool
  updated : Bool
deriving Repr, DecidableEq

/-- Flags with no bit set. -/
def ZSFlags.none : ZSFlags := ⟨false, false, false, false⟩

/-- A leaf item: `ZSSingleBtreeItem`, `ZSArrayBtreeItem` or
`ZSCompressedBtreeItem` (zedstore_internal.h lines 175-218).  Packed payload
bytes are modelled as the list of datums they decode to; a compressed item
carries the sequence of uncompressed items its payload decompresses to, plus
its explicit first and last TID. -/
inductive ZSItem where
  | single (tid : Nat) (undo : ZSUndoRecPtr) (flags : ZSFlags) (datums : List Datum)
  | array (tid : Nat) (nelements : Nat) (undo : ZSUndoRecPtr) (flags : ZSFlags)
      (datums : List Datum)
  | compressed (tid : Nat) (lasttid : Nat) (contents : List ZSItem)

/-- Model of `zsbt_item_lasttid` (zedstore_internal.h lines 232-244): the last TID an
item spans. -/
def zsbt_item_lasttid : ZSItem → Nat
  | .compressed _ lasttid _ => lasttid
  | .array tid n _ _ _ => tid + n - 1
  | .single tid _ _ _ => tid

/-- The first TID of an item (`t_tid`). -/
def zsbt_item_firsttid : ZSItem → Nat
  | .compressed tid _ _ => tid
  | .array tid _ _ _ _ => tid
  | .single tid _ _ _ => tid

/-- The `ZSBT_DEAD` bit of `t_flags` (never set on a compressed item). -/
def zsbt_item_isdead : ZSItem → Bool
  | .single _ _ f _ => f.dead
  | .array _ _ _ f _ => f.dead
  | .compressed _ _ _ => false

/-- Model of `zsbt_item_undoptr` (zedstore_internal.h lines 246-261); the compressed
case raises an error in the source and is never reached by its callers, it is
mapped to the zero pointer here. -/
def zsbt_item_undoptr : ZSItem → ZSUndoRecPtr
  | .single _ u _ _ => u
  | .array _ _ u _ _ => u
  | .compressed _ _ _ => ⟨0⟩

/-! ## Dead-item elision during recompression (zedstore_btree.c 4070-4084) -/

/-- The dead-item test of `zsbt_recompress_replace` (zedstore_btree.c lines
4074-4084): an item is carried over to the rewritten page unless it is DEAD
and `zsbt_item_undoptr(uitem).counter <= recent_oldest_undo.counter`. -/
def zsbt_recompress_keep (recent_oldest_undo : ZSUndoRecPtr) (item : ZSItem) : Bool :=
  if zsbt_item_isdead item then
    decide (recent_oldest_undo.counter < (zsbt_item_undoptr item).counter)
  else true

/-- The items of the input list that survive `zsbt_recompress_replace`
(the packing into pages and the compressor preserve exactly the kept items,
so survival is the `zsbt_recompress_keep` filter). -/
def zsbt_recompress_surviving (recent_oldest_undo : ZSUndoRecPtr)
    (items : List ZSItem) : List ZSItem :=
  items.filter (zsbt_recompress_keep recent_oldest_undo)

/-! ## Internal-page binary search (zedstore_btree.c lines 4188-4207) -/

/-- Model of `ZSBtreeInternalPageItem` (zedstore_internal.h lines 115-119). -/
structure ZSBtreeInternalPageItem where
  tid : Nat
  childblk : Nat
deriving Repr, DecidableEq

/-- The `while (high > low)` loop of `zsbt_binsrch_internal` (zedstore_btree.c
lines 4195-4205), with an explicit fuel argument; `arr.length` steps always
suffice because `high - low` shrinks every iteration. -/
def zsbt_binsrch_go (key : Nat) (arr : List ZSBtreeInternalPageItem) :
    Nat → Nat → Nat → Nat
  | low, _, 0 => low
  | low, high, fuel + 1 =>
    if low < high then
      if (arr.getD (low + (high - low) / 2) ⟨0, 0⟩).tid ≤ key then
        zsbt_binsrch_go key arr (low + (high - low) / 2 + 1) high fuel
      else
        zsbt_binsrch_go key arr low (low + (high - low) / 2) fuel
    else low

/-- Model of `zsbt_binsrch_internal` (zedstore_btree.c lines 4188-4207): binary search
over the sorted entry array, returning `low - 1` (which is `-1` when every
entry's tid exceeds the key). -/
def zsbt_binsrch_internal (key : Nat) (arr : List ZSBtreeInternalPageItem) : Int :=
  (zsbt_binsrch_go key arr 0 arr.length arr.length : Int) - 1

/-! ## Item creation and multi-insert grouping (zedstore_btree.c) -/

/-- PostgreSQL `BLCKSZ` (default page size). -/
def BLCKSZ : Nat := 8192

/-- Model of `MaxZedStoreDatumSize` (zedstore_internal.h line 278): `BLCKSZ - 500`. -/
def MaxZedStoreDatumSize : Nat := BLCKSZ - 500

/-- Model of `zsbt_create_item` (zedstore_btree.c lines 3530-3691): forms an array item
when `nelements > 1`, otherwise a single item; the payload is the packed
datums (empty when null), the null flag is the only flag set. -/
def zsbt_create_item (tid : Nat) (undo_ptr : ZSUndoRecPtr) (nelements : Nat)
    (datums : List Datum) (isnull : Bool) : ZSItem :=
  if 1 < nelements then
    ZSItem.array tid nelements undo_ptr ⟨isnull, false, false, false⟩
      (if isnull then [] else datums)
  else
    ZSItem.single tid undo_ptr ⟨isnull, false, false, false⟩
      (if isnull then [] else datums)

/-- The decoded payload size of an item: the sum of the per-datum sizes of
its packed datums, under the per-datum size function `sz`
(`zsbt_compute_data_size` for the scanned attribute). -/
def itemPayloadSize (sz : Datum → Nat) : ZSItem → Nat
  | .single _ _ _ ds => (ds.map sz).sum
  | .array _ _ _ _ ds => (ds.map sz).sum
  | .compressed _ _ _ => 0

/-- One row of `zsbt_multi_insert`'s input after TID assignment: the TID, the
null flag and the datum of one new tuple. -/
structure InsEntry where
  tid : Nat
  isnull : Bool
  datum : Datum
deriving Repr, DecidableEq

/-- The inner grouping loop of `zsbt_multi_insert` (zedstore_btree.c lines
2418-2436): starting after the group's first entry, count how many further
entries join the group (same null flag as the first, TID consecutive with the
previous, and — for non-null groups — the size test of line 2432, which reads
`datasz + datum_sz < MaxZedStoreDatumSize / 4 → break`).  Returns the number
of extra entries taken and the final accumulated `datasz`. -/
def zsbt_multi_insert_group (sz : Datum → Nat) (isnull0 : Bool) :
    Nat → Nat → List InsEntry → Nat × Nat
  | _, datasz, [] => (0, datasz)
  | prevtid, datasz, e :: rest =>
    if e.isnull != isnull0 then (0, datasz)
    else if e.tid != prevtid + 1 then (0, datasz)
    else if isnull0 then
      let p := zsbt_multi_insert_group sz isnull0 e.tid datasz rest
      (p.1 + 1, p.2)
    else if datasz + sz e.datum < MaxZedStoreDatumSize / 4 then (0, datasz)
    else
      let p := zsbt_multi_insert_group sz isnull0 e.tid (datasz + sz e.datum) rest
      (p.1 + 1, p.2)

/-- The outer item-building loop of `zsbt_multi_insert` (zedstore_btree.c
lines 2409-2443): repeatedly take a group and build one item from it with
`zsbt_create_item`.  `fuel` bounds the number of groups; the list's length
always suffices since every group consumes at least one entry. -/
def zsbt_multi_insert_items_go (sz : Datum → Nat) (undorecptr : ZSUndoRecPtr) :
    Nat → List InsEntry → List ZSItem
  | 0, _ => []
  | _, [] => []
  | fuel + 1, e :: rest =>
    let datasz0 := if e.isnull then 0 else sz e.datum
    let p := zsbt_multi_insert_group sz e.isnull e.tid datasz0 rest
    zsbt_create_item e.tid undorecptr (p.1 + 1)
        (e.datum :: (rest.take p.1).map InsEntry.datum) e.isnull
      :: zsbt_multi_insert_items_go sz undorecptr fuel (rest.drop p.1)

/-- The list of items `zsbt_multi_insert` builds for its input entries
(zedstore_btree.c lines 2408-2443). -/
def zsbt_multi_insert_items (sz : Datum → Nat) (undorecptr : ZSUndoRecPtr)
    (entries : List InsEntry) : List ZSItem :=
  zsbt_multi_insert_items_go sz undorecptr entries.length entries

/-! ## Leaf pages, get_last_tid and TID assignment (zedstore_btree.c) -/

/-- A leaf page: the `ZSBtreePageOpaque` fields relevant to the modelled
routines (`zs_lokey`, `zs_hikey`, `zs_next`) and the item array in page
order.  `nextblk = none` models `zs_next = InvalidBlockNumber`. -/
structure LeafPage where
  lokey : Nat
  hikey : Nat
  nextblk : Option Nat
  items : List ZSItem

/-- Model of `zsbt_get_last_tid` (zedstore_btree.c lines 2267-2305) applied to the
rightmost leaf reached by descending with key `MaxZSTid`
(`rightmost = none` models the completely empty tree, where `zsbt_descend`
returns `InvalidBuffer`). -/
def zsbt_get_last_tid (rightmost : Option LeafPage) : Nat :=
  match rightmost with
  | none => MinZSTid
  | some page =>
    match page.items.getLast? with
    | some hitup => zsbt_item_lasttid hitup + 1
    | none => page.lokey

/-- The first TID `zsbt_multi_insert` assigns on a page (zedstore_btree.c
lines 2363-2379): one past the last TID of the page's last item
(`zsbt_item_lasttid(hitup) + 1`), or the page's `lokey` if it is empty. -/
def zsbt_page_next_tid (page : LeafPage) : Nat :=
  match page.items.getLast? with
  | some hitup => zsbt_item_lasttid hitup + 1
  | none => page.lokey

/-- The TID-assignment step of `zsbt_multi_insert` when the caller passed
invalid TIDs (zedstore_btree.c lines 2363-2386): consecutive TIDs starting
at `zsbt_page_next_tid` (the loop `tids[i] = tid; tid++`). -/
def zsbt_assign_tids (page : LeafPage) (nitems : Nat) : List Nat :=
  (List.range nitems).map (fun i => zsbt_page_next_tid page + i)

/-- One `zsbt_multi_insert` call with invalid TIDs against the rightmost
leaf: assign TIDs, build the items, and rewrite the page with the new items
appended at the tail (zedstore_btree.c lines 2445-2448; `zsbt_replace_item`
with an invalid old TID passes every existing item through and appends
`newitems`, and `zsbt_recompress_replace` then drops old-enough DEAD items
and re-packs the rest in order).  Returns the rewritten item sequence
(possibly spread over several pages by a split, rightmost last) and the
assigned TIDs. -/
def zsbt_multi_insert_invalid_tids (sz : Datum → Nat)
    (undorecptr recent_oldest_undo : ZSUndoRecPtr) (page : LeafPage)
    (rows : List (Bool × Datum)) : LeafPage × List Nat :=
  ({ page with
      items := zsbt_recompress_surviving recent_oldest_undo
        (page.items ++
          zsbt_multi_insert_items sz undorecptr
            (List.zipWith (fun t bd => InsEntry.mk t bd.1 bd.2)
              (zsbt_assign_tids page rows.length) rows)) },
    zsbt_assign_tids page rows.length)

/-! ## Leaf rewrite: replacing one TID (zedstore_btree.c lines 3706-3909) -/

/-- The `ZSBT_NULL` bit of an item (never set on a compressed item). -/
def zsbt_item_isnull : ZSItem → Bool
  | .single _ _ f _ => f.isnull
  | .array _ _ _ f _ => f.isnull
  | .compressed _ _ _ => false

/-- The array branch of `zsbt_replace_item` (zedstore_btree.c lines
3818-3871): the array item `{tid, nelements, undo, isnull, datums}` covers
`oldtid`, so it is cut at `cutoff = oldtid - tid` into the slice before the
target (kept with the original UNDO pointer and null flag, `cutoff`
elements), the replacement item (or nothing) in place of the target element,
and the slice after the target (`nelements - (cutoff + 1)` elements starting
at `oldtid + 1`); the byte-length walks of `zsbt_get_array_slice_len`
(lines 3425-3467) become element counts here. -/
def zsbt_replace_split_array (tid nelements : Nat) (undo : ZSUndoRecPtr)
    (isnull : Bool) (datums : List Datum) (oldtid : Nat)
    (replacementitem : Option ZSItem) : List ZSItem :=
  (if 0 < oldtid - tid then
      [zsbt_create_item tid undo (oldtid - tid)
        (datums.take (oldtid - tid)) isnull]
    else []) ++
  replacementitem.toList ++
  (if oldtid - tid + 1 < nelements then
      [zsbt_create_item (oldtid + 1) undo (nelements - (oldtid - tid + 1))
        (datums.drop (oldtid - tid + 1)) isnull]
    else [])

/-- One non-compressed item processed by the rewrite loop of
`zsbt_replace_item` (zedstore_btree.c lines 3812-3887): the array branch
splits an array covering `oldtid`, the single branch replaces or elides an
exact match, anything else passes through.  Returns the emitted items and
whether the old item was found. -/
def zsbt_replace_plain (oldtid : Nat) (repl : Option ZSItem) :
    ZSItem → List ZSItem × Bool
  | .array tid nelements undo flags datums =>
    if oldtid ≠ InvalidZSTid ∧ tid ≤ oldtid ∧
        oldtid ≤ zsbt_item_lasttid (.array tid nelements undo flags datums) then
      (zsbt_replace_split_array tid nelements undo flags.isnull datums oldtid
        repl, true)
    else ([.array tid nelements undo flags datums], false)
  | .single tid undo flags datums =>
    if oldtid ≠ InvalidZSTid ∧ tid = oldtid then (repl.toList, true)
    else ([.single tid undo flags datums], false)
  | .compressed tid lasttid cs => ([.compressed tid lasttid cs], false)

/-- The rewrite loop of `zsbt_replace_item` while `decompressing` is set
(zedstore_btree.c lines 3759-3767, 3784-3790): the items read back out of the
decompressor are processed like page items, except that a nested compressed
item raises an error. -/
def zsbt_replace_scan_decompressed (oldtid : Nat) (repl : Option ZSItem) :
    List ZSItem → Except String (List ZSItem × Bool)
  | [] => .ok ([], false)
  | ZSItem.compressed _ _ _ :: _ =>
    .error "nested compressed items on zedstore page not supported"
  | item :: rest =>
    match zsbt_replace_scan_decompressed oldtid repl rest with
    | .error e => .error e
    | .ok (out2, f2) =>
      .ok ((zsbt_replace_plain oldtid repl item).1 ++ out2,
        (zsbt_replace_plain oldtid repl item).2 || f2)

/-- The rewrite loop of `zsbt_replace_item` over the page's items
(zedstore_btree.c lines 3746-3888): a compressed item whose `[tid, lasttid]`
range covers `oldtid` is decompressed and its contents processed in place
(line 3792), any other compressed item passes through, and non-compressed
items go through `zsbt_replace_plain`. -/
def zsbt_replace_scan_page (oldtid : Nat) (repl : Option ZSItem) :
    List ZSItem → Except String (List ZSItem × Bool)
  | [] => .ok ([], false)
  | ZSItem.compressed t l cs :: rest =>
    if oldtid ≠ InvalidZSTid ∧ t ≤ oldtid ∧ oldtid ≤ l then
      match zsbt_replace_scan_decompressed oldtid repl cs with
      | .error e => .error e
      | .ok (out1, f1) =>
        match zsbt_replace_scan_page oldtid repl rest with
        | .error e => .error e
        | .ok (out2, f2) => .ok (out1 ++ out2, f1 || f2)
    else
      match zsbt_replace_scan_page oldtid repl rest with
      | .error e => .error e
      | .ok (out2, f2) => .ok (ZSItem.compressed t l cs :: out2, f2)
  | item :: rest =>
    match zsbt_replace_scan_page oldtid repl rest with
    | .error e => .error e
    | .ok (out2, f2) =>
      .ok ((zsbt_replace_plain oldtid repl item).1 ++ out2,
        (zsbt_replace_plain oldtid repl item).2 || f2)

/-- Model of `zsbt_replace_item` (zedstore_btree.c lines 3706-3909): walk the page's
items replacing `oldtid`; if `oldtid` is valid and no item was found, raise
the missing-old-item error of lines 3890-3891 (so nothing is handed to the
recompressor and no page is rewritten); otherwise append `newitems` and hand
the list over. -/
def zsbt_replace_item (oldtid : Nat) (repl : Option ZSItem)
    (newitems pageItems : List ZSItem) : Except String (List ZSItem) :=
  match zsbt_replace_scan_page oldtid repl pageItems with
  | .error e => .error e
  | .ok (out, found) =>
    if oldtid ≠ InvalidZSTid ∧ found = false then
      .error "could not find old item to replace"
    else .ok (out ++ newitems)

/-- Non-compressed coverage of a TID: a single item covers exactly its own
TID, an array item covers `[tid, tid + nelements - 1]`; a compressed item
never matches directly (the rewrite loop looks inside it instead). -/
def itemCoversTidFlat : ZSItem → Nat → Bool
  | .single tid _ _ _, t => tid == t
  | .array tid n _ _ _, t => decide (tid ≤ t) && decide (t ≤ tid + n - 1)
  | .compressed _ _ _, _ => false

/-- Coverage of a TID by a page item, compressed containers included: a
compressed item covers `t` when its advertised `[tid, lasttid]` range covers
`t` and one of the items its payload decompresses to covers `t`. -/
def itemCoversTid : ZSItem → Nat → Bool
  | .compressed tid lasttid cs, t =>
      decide (tid ≤ t) && decide (t ≤ lasttid) &&
      cs.any (fun c => itemCoversTidFlat c t)
  | item, t => itemCoversTidFlat item t

/-- Compressed items on the page contain no nested compressed items. -/
def noNestedCompressed (items : List ZSItem) : Bool :=
  items.all (fun it =>
    match it with
    | .compressed _ _ cs =>
      cs.all (fun c =>
        match c with
        | .compressed _ _ _ => false
        | _ => true)
    | _ => true)

/-! ## The leaf scan state machine (zedstore_btree.c lines 1846-2262,
zedstore_internal.h lines 507-528) -/

/-- The scan state `ZSBtreeScan` (zedstore_internal.h lines 400-447),
restricted to the fields the TID stream depends on.  `arrayDatums` models the
window `array_next_datum .. array_datums + n`; `decompressed` models the
items still to be read from the decompressor; `pages` models the current
page (`lastbuf`) followed by the chain of right siblings reachable through
`zs_next` (an empty tail models `zs_next = InvalidBlockNumber`). -/
structure ZSBtreeScanState where
  active : Bool
  nexttid : Nat
  endtid : Nat
  arrayIsnull : Bool
  arrayDatums : List Datum
  arrayEltsLeft : Nat
  decompressed : List ZSItem
  hasDecompressed : Bool
  pages : List LeafPage

/-- The skip loop of `zsbt_scan_extract_array` (zedstore_btree.c lines
1921-1938): `while (tid < scan->nexttid && nelements > 0)` step past one
element at a time.  Returns the remaining first TID, element count and
datums. -/
def zsbt_scan_array_skip (nexttid : Nat) :
    Nat → Nat → List Datum → Nat × Nat × List Datum
  | tid, 0, datums => (tid, 0, datums)
  | tid, n + 1, datums =>
    if tid < nexttid then
      zsbt_scan_array_skip nexttid (tid + 1) n (datums.drop 1)
    else (tid, n + 1, datums)

/-- Model of `zsbt_scan_extract_array` (zedstore_btree.c lines 1912-2037): skip the
elements below `nexttid`, leave out the elements at or past `endtid`
(lines 1940-1942), and load the rest into the scan's array fields.  Note
that the source does not update `scan->nexttid` here. -/
def zsbt_scan_extract_array (s : ZSBtreeScanState) (tid nelements : Nat)
    (isnull : Bool) (datums : List Datum) : ZSBtreeScanState :=
  match zsbt_scan_array_skip s.nexttid tid nelements datums with
  | (tid2, n2, datums2) =>
    if tid2 + n2 > s.endtid then
      { s with
          arrayIsnull := isnull
          arrayDatums := datums2.take (s.endtid - tid2)
          arrayEltsLeft := s.endtid - tid2 }
    else
      { s with
          arrayIsnull := isnull
          arrayDatums := datums2.take n2
          arrayEltsLeft := n2 }

/-- The outcome of scanning the items of one page: either an item was
returned to the caller, or control falls through to the
walk-right/continue logic after the `for` loop. -/
inductive PageScanOut where
  | yielded (s : ZSBtreeScanState)
  | through (s : ZSBtreeScanState)

/-- The per-page `for (off = FirstOffsetNumber; ...)` loop of
`zsbt_scan_next` (zedstore_btree.c lines 2162-2237): skip items entirely
below `nexttid`; stop at the first item at or past `endtid` (setting
`nexttid = endtid`); hand a compressed item to the decompressor and break;
check visibility, skipping invisible items past their last TID; extract a
visible array item into the array fields and break if any elements
remained; return a visible single item. -/
def zsbt_scan_page_items (vis : ZSItem → Bool) :
    ZSBtreeScanState → List ZSItem → PageScanOut
  | s, [] => .through s
  | s, item :: rest =>
    if zsbt_item_lasttid item < s.nexttid then
      zsbt_scan_page_items vis s rest
    else if s.endtid ≤ zsbt_item_firsttid item then
      .through { s with nexttid := s.endtid }
    else
      match item with
      | .compressed _ _ contents =>
        .through { s with decompressed := contents, hasDecompressed := true }
      | .array tid n undo flags ds =>
        if vis (.array tid n undo flags ds) then
          if 0 < (zsbt_scan_extract_array s tid n flags.isnull ds).arrayEltsLeft then
            .through (zsbt_scan_extract_array s tid n flags.isnull ds)
          else
            zsbt_scan_page_items vis
              (zsbt_scan_extract_array s tid n flags.isnull ds) rest
        else
          zsbt_scan_page_items vis
            { s with nexttid := zsbt_item_lasttid (.array tid n undo flags ds) + 1 }
            rest
      | .single tid undo flags ds =>
        if vis (.single tid undo flags ds) then
          .yielded { s with
            nexttid := tid
            arrayEltsLeft := 1
            arrayDatums := ds
            arrayIsnull := flags.isnull }
        else
          zsbt_scan_page_items vis { s with nexttid := tid + 1 } rest

/-- The `while (scan->nexttid < scan->endtid)` loop of `zsbt_scan_next`
(zedstore_btree.c lines 2069-2261), with the visibility check abstracted as
the pure predicate `vis` (per-snapshot `zs_SatisfiesVisibility`) and an
explicit fuel bound on loop iterations.  Returns the C function's boolean
and the updated scan state. -/
def zsbt_scan_next_go (vis : ZSItem → Bool) :
    Nat → ZSBtreeScanState → Bool × ZSBtreeScanState
  | 0, s => (false, s)
  | fuel + 1, s =>
    if s.nexttid < s.endtid then
      if 0 < s.arrayEltsLeft then (true, s)
      else if s.hasDecompressed then
        match s.decompressed with
        | [] => zsbt_scan_next_go vis fuel { s with hasDecompressed := false }
        | uitem :: rest =>
          if zsbt_item_lasttid uitem < s.nexttid then
            zsbt_scan_next_go vis fuel { s with decompressed := rest }
          else if s.endtid ≤ zsbt_item_firsttid uitem then
            (false, { s with decompressed := rest })
          else if vis uitem then
            match uitem with
            | .array tid n _ flags ds =>
              zsbt_scan_next_go vis fuel
                (zsbt_scan_extract_array { s with decompressed := rest }
                  tid n flags.isnull ds)
            | .single tid _ flags ds =>
              (true, { s with
                decompressed := rest
                nexttid := tid
                arrayEltsLeft := 1
                arrayDatums := ds
                arrayIsnull := flags.isnull })
            | .compressed _ _ _ => (false, s)
          else
            zsbt_scan_next_go vis fuel
              { s with
                decompressed := rest
                nexttid := zsbt_item_lasttid uitem + 1 }
      else
        match s.pages with
        | [] => (false, s)
        | page :: siblings =>
          match zsbt_scan_page_items vis s page.items with
          | .yielded s2 => (true, s2)
          | .through s2 =>
            if 0 < s2.arrayEltsLeft ∨ s2.hasDecompressed = true then
              zsbt_scan_next_go vis fuel s2
            else
              match siblings with
              | [] =>
                (false, { s2 with
                  active := false
                  arrayEltsLeft := 0
                  pages := [] })
              | next :: more =>
                if s2.endtid ≤ s2.nexttid then
                  (false, { s2 with
                    active := false
                    arrayEltsLeft := 0
                    pages := [] })
                else
                  zsbt_scan_next_go vis fuel { s2 with pages := next :: more }
    else (false, s)

/-- Model of `zsbt_scan_next` (zedstore_btree.c lines 2049-2262): inactive scans
return false immediately. -/
def zsbt_scan_next (vis : ZSItem → Bool) (fuel : Nat)
    (s : ZSBtreeScanState) : Bool × ZSBtreeScanState :=
  if s.active then zsbt_scan_next_go vis fuel s else (false, s)

/-- The do-while loop of `zsbt_scan_next_tid` (zedstore_internal.h lines
513-525): if array elements remain, yield `nexttid` and advance it,
otherwise advance the scan and try again. -/
def zsbt_scan_next_tid_go (vis : ZSItem → Bool) :
    Nat → ZSBtreeScanState → Option Nat × ZSBtreeScanState
  | 0, s => (none, s)
  | fuel + 1, s =>
    if 0 < s.arrayEltsLeft then
      (some s.nexttid,
        { s with
          nexttid := s.nexttid + 1
          arrayEltsLeft := s.arrayEltsLeft - 1 })
    else
      match zsbt_scan_next vis fuel s with
      | (true, s2) => zsbt_scan_next_tid_go vis fuel s2
      | (false, s2) => (none, s2)

/-- Model of `zsbt_scan_next_tid` (zedstore_internal.h lines 507-528): the next
visible TID of the scan, or none at the end. -/
def zsbt_scan_next_tid (vis : ZSItem → Bool) (fuel : Nat)
    (s : ZSBtreeScanState) : Option Nat × ZSBtreeScanState :=
  if s.active then zsbt_scan_next_tid_go vis fuel s else (none, s)

/-- Drain the scan through `zsbt_scan_next_tid`, collecting every TID it
yields (the caller loop of a meta-attribute scan). -/
def zsbt_scan_collect_tids (vis : ZSItem → Bool) :
    Nat → ZSBtreeScanState → List Nat
  | 0, _ => []
  | fuel + 1, s =>
    match zsbt_scan_next_tid vis fuel s with
    | (some t, s2) => t :: zsbt_scan_collect_tids vis fuel s2
    | (none, _) => []

/-- Model of `zsbt_begin_scan` (zedstore_btree.c lines 1846-1888): record
`nexttid = starttid` and `endtid`, descend to the leaf containing
`starttid` (the head of `pages`); an empty tree leaves the scan inactive. -/
def zsbt_begin_scan_state (pages : List LeafPage) (starttid endtid : Nat) :
    ZSBtreeScanState :=
  { active := !pages.isEmpty
    nexttid := starttid
    endtid := endtid
    arrayIsnull := false
    arrayDatums := []
    arrayEltsLeft := 0
    decompressed := []
    hasDecompressed := false
    pages := pages }

/-! ## Theorems for claim C9: TID conversions -/

/-- C9 (round trips of the TID encoding): for every block number up to
`MaxBlockNumber` and every offset in `[1, 128]`, converting the pair to a TID
and back recovers the same block and offset; for every TID arising from such a
pair, converting it to an item pointer and back is the identity; and the
encoding is strictly monotone in lexicographic `(block, offset)` order. -/
theorem zstid_conversion_roundtrip
    (blk off : Nat) (hblk : blk ≤ MaxBlockNumber)
    (hoff1 : 1 ≤ off) (hoff2 : off ≤ 128) :
    ItemPointerBlkFromZSTid (ZSTidFromBlkOff blk off) = blk ∧
    ItemPointerOffFromZSTid (ZSTidFromBlkOff blk off) = off ∧
    ZSTidFromItemPointer (ItemPointerBlkFromZSTid (ZSTidFromBlkOff blk off))
        (ItemPointerOffFromZSTid (ZSTidFromBlkOff blk off)) =
      ZSTidFromBlkOff blk off ∧
    (∀ blk2 off2, blk2 ≤ MaxBlockNumber → 1 ≤ off2 → off2 ≤ 128 →
      (blk < blk2 ∨ (blk = blk2 ∧ off < off2)) →
      ZSTidFromBlkOff blk off < ZSTidFromBlkOff blk2 off2) := by
  have hmax : MaxBlockNumber = 4294967294 := rfl
  rw [hmax] at hblk
  refine ⟨?_, ?_, ?_, ?_⟩
  · simp only [ItemPointerBlkFromZSTid, ZSTidFromBlkOff, MaxZSTidOffsetNumber]
    norm_num
    omega
  · simp only [ItemPointerOffFromZSTid, ZSTidFromBlkOff, MaxZSTidOffsetNumber]
    norm_num
    omega
  · simp only [ZSTidFromItemPointer, ItemPointerBlkFromZSTid,
      ItemPointerOffFromZSTid, ZSTidFromBlkOff, MaxZSTidOffsetNumber]
    norm_num
    omega
  · intro blk2 off2 hb2 ho21 ho22 hlt
    rw [hmax] at hb2
    simp only [ZSTidFromBlkOff, MaxZSTidOffsetNumber]
    norm_num
    rcases hlt with h | ⟨heq, h⟩
    · have h1 : blk * 128 + 128 ≤ blk2 * 128 := by nlinarith
      omega
    · subst heq
      omega

/-- Concrete instantiation of `zstid_conversion_roundtrip` at
`blk = 3, off = 7` (TID 391). -/
theorem zstid_conversion_roundtrip_witness :
    (3 ≤ MaxBlockNumber ∧ 1 ≤ 7 ∧ 7 ≤ 128) ∧
    ItemPointerBlkFromZSTid (ZSTidFromBlkOff 3 7) = 3 ∧
    ItemPointerOffFromZSTid (ZSTidFromBlkOff 3 7) = 7 := by
  have h := zstid_conversion_roundtrip 3 7 (by decide) (by decide) (by decide)
  exact ⟨⟨by decide, by decide, by decide⟩, h.1, h.2.1⟩

/-! ## Theorems for claim C2: tuple-lock compatibility -/

/-- C2, counterexample: an Exclusive holder has the greatest mode number, so
the claim would make it compatible with a KeyShare request, but
`zs_tuplelock_compatible` returns false for that pair (line 309: a request of
any mode against an Exclusive holder conflicts; conversely a KeyShare holder
with the smaller mode number is compatible with a Share request, which the
claim would forbid). -/
theorem tuplelock_compatible_not_mode_order :
    ¬ (∀ mode newmode : LockTupleMode,
        zs_tuplelock_compatible mode newmode =
          decide (lockTupleModeNumber newmode ≤ lockTupleModeNumber mode)) := by
  intro h
  have := h .lockTupleExclusive .lockTupleKeyShare
  simp [zs_tuplelock_compatible, lockTupleModeNumber] at this

/-- C2 (amended): `zs_tuplelock_compatible` returns true exactly when the
holder's and the requester's mode numbers sum to less than 3: a KeyShare
request is compatible with every holder except Exclusive, a Share request
with KeyShare and Share holders, a NoKeyExclusive request only with a
KeyShare holder, and an Exclusive request with no holder. -/
theorem tuplelock_compatible_iff_sum_lt_three
    (mode newmode : LockTupleMode) :
    zs_tuplelock_compatible mode newmode =
      decide (lockTupleModeNumber mode + lockTupleModeNumber newmode < 3) := by
  cases mode <;> cases newmode <;> rfl

/-! ## Theorems for claim C1: dead-item elision boundary -/

/-- C1, evaluation at the failing input: a DEAD item whose UNDO counter `U`
equals the oldest-live counter (`oldest_live = U = 5`, so `oldest_live ≤ U`
and the claim says the tombstone must survive the rewrite) is elided by
`zsbt_recompress_replace`, because line 4082 elides on
`counter <= recent_oldest_undo.counter` rather than strictly; a dead item
with `U = 6 > oldest_live` is kept. -/
theorem dead_item_elided_at_equal_undo_counter :
    zsbt_recompress_keep ⟨5⟩
        (ZSItem.single 7 ⟨5⟩ ⟨false, true, false, false⟩ []) = false ∧
    zsbt_recompress_surviving ⟨5⟩
        [ZSItem.single 7 ⟨5⟩ ⟨false, true, false, false⟩ []] = [] ∧
    (5 : Nat) ≤ 5 ∧
    zsbt_recompress_keep ⟨5⟩
        (ZSItem.single 7 ⟨6⟩ ⟨false, true, false, false⟩ []) = true := by
  exact ⟨rfl, rfl, le_refl 5, rfl⟩

/-! ## Theorems for claim C4: internal-page binary search -/

/-- Sortedness transfers to `getD` indices. -/
theorem internal_items_getD_le_of_sorted (arr : List ZSBtreeInternalPageItem)
    (hsorted : arr.Pairwise (fun a b => a.tid < b.tid))
    (i j : Nat) (hij : i ≤ j) (hj : j < arr.length) :
    (arr.getD i ⟨0, 0⟩).tid ≤ (arr.getD j ⟨0, 0⟩).tid := by
  rcases Nat.eq_or_lt_of_le hij with heq | hlt
  · subst heq
    exact le_refl _
  · have hi : i < arr.length := lt_trans hlt hj
    rw [List.getD_eq_getElem _ _ hi, List.getD_eq_getElem _ _ hj]
    have := List.pairwise_iff_get.mp hsorted ⟨i, hi⟩ ⟨j, hj⟩ hlt
    simpa using le_of_lt this

/-- Loop invariant of the binary search: starting from a window
`[low, high)` such that everything below `low` is `≤ key` and everything at
or above `high` is `> key`, the loop returns the count of entries `≤ key`
within the constraints of the window. -/
theorem zsbt_binsrch_go_spec (key : Nat) (arr : List ZSBtreeInternalPageItem)
    (hsorted : arr.Pairwise (fun a b => a.tid < b.tid)) :
    ∀ fuel low high, high - low ≤ fuel → low ≤ high → high ≤ arr.length →
    (∀ i, i < low → (arr.getD i ⟨0, 0⟩).tid ≤ key) →
    (∀ i, high ≤ i → i < arr.length → key < (arr.getD i ⟨0, 0⟩).tid) →
    low ≤ zsbt_binsrch_go key arr low high fuel ∧
    zsbt_binsrch_go key arr low high fuel ≤ high ∧
    (∀ i, i < zsbt_binsrch_go key arr low high fuel →
      (arr.getD i ⟨0, 0⟩).tid ≤ key) ∧
    (∀ i, zsbt_binsrch_go key arr low high fuel ≤ i → i < arr.length →
      key < (arr.getD i ⟨0, 0⟩).tid) := by
  intro fuel
  induction fuel with
  | zero =>
    intro low high hfuel hlh hha hlo hhi
    have : low = high := by omega
    subst this
    exact ⟨le_refl _, le_refl _, hlo, hhi⟩
  | succ fuel ih =>
    intro low high hfuel hlh hha hlo hhi
    simp only [zsbt_binsrch_go]
    by_cases hcmp : low < high
    · rw [if_pos hcmp]
      have hmid1 : low ≤ low + (high - low) / 2 := by omega
      have hmid2 : low + (high - low) / 2 < high := by omega
      by_cases hkey : (arr.getD (low + (high - low) / 2) ⟨0, 0⟩).tid ≤ key
      · rw [if_pos hkey]
        refine (ih (low + (high - low) / 2 + 1) high (by omega) (by omega)
          hha ?_ hhi).imp (fun h => by omega) (fun h => h)
        intro i hi
        exact le_trans
          (internal_items_getD_le_of_sorted arr hsorted i
            (low + (high - low) / 2) (by omega) (by omega)) hkey
      · rw [if_neg hkey]
        refine (ih low (low + (high - low) / 2) (by omega) (by omega)
          (by omega) hlo ?_).imp
          (fun h => h) (fun h => ⟨le_trans h.1 (le_of_lt hmid2), h.2⟩)
        intro i hi hia
        have := internal_items_getD_le_of_sorted arr hsorted
          (low + (high - low) / 2) i hi hia
        omega
    · rw [if_neg hcmp]
      have : low = high := by omega
      subst this
      exact ⟨le_refl _, le_refl _, hlo, hhi⟩

/-- C4, counterexample: on the single-entry internal page `[{tid = 5}]`
(sorted, distinct) and search key `3`, `zsbt_binsrch_internal` returns `-1`,
which is not in `[0, n-1]` and is not the index of any entry — the claim's
"every search key" fails for keys below the first entry's tid. -/
theorem binsrch_internal_below_first_entry_counterexample :
    ([⟨5, 100⟩] : List ZSBtreeInternalPageItem).Pairwise
        (fun a b => a.tid < b.tid) ∧
    zsbt_binsrch_internal 3 [⟨5, 100⟩] = -1 ∧
    ¬ (0 ≤ zsbt_binsrch_internal 3 [⟨5, 100⟩]) := by
  refine ⟨?_, rfl, by decide⟩
  simp

/-- C4 (amended): for every internal page holding `n ≥ 1` entries sorted by
distinct tids and every search key at least as large as the first entry's tid,
`zsbt_binsrch_internal` returns the index of the largest entry whose
`tid ≤ key`, and that index lies in `[0, n-1]`; for a key below the first
entry's tid it returns `-1`. -/
theorem binsrch_internal_finds_largest_le (key : Nat)
    (arr : List ZSBtreeInternalPageItem)
    (hsorted : arr.Pairwise (fun a b => a.tid < b.tid))
    (hne : arr ≠ [])
    (hkey : (arr.getD 0 ⟨0, 0⟩).tid ≤ key) :
    0 ≤ zsbt_binsrch_internal key arr ∧
    zsbt_binsrch_internal key arr < (arr.length : Int) ∧
    (arr.getD (zsbt_binsrch_internal key arr).toNat ⟨0, 0⟩).tid ≤ key ∧
    (∀ j, (zsbt_binsrch_internal key arr).toNat < j → j < arr.length →
      key < (arr.getD j ⟨0, 0⟩).tid) := by
  have hlen : 0 < arr.length := List.length_pos.mpr hne
  obtain ⟨h1, h2, h3, h4⟩ := zsbt_binsrch_go_spec key arr hsorted arr.length 0
    arr.length (by omega) (by omega) (le_refl _)
    (by intro i hi; omega) (by intro i hi hia; omega)
  set r0 := zsbt_binsrch_go key arr 0 arr.length arr.length with hr0
  have hpos : 1 ≤ r0 := by
    by_contra hcon
    have : r0 = 0 := by omega
    have := h4 0 (by omega) hlen
    omega
  have hval : zsbt_binsrch_internal key arr = ((r0 - 1 : Nat) : Int) := by
    unfold zsbt_binsrch_internal
    rw [← hr0]
    omega
  refine ⟨by omega, ?_, ?_, ?_⟩
  · rw [hval]
    have : r0 - 1 < arr.length := by omega
    exact_mod_cast this
  · rw [hval]
    simp only [Int.toNat_ofNat]
    exact h3 (r0 - 1) (by omega)
  · intro j hj hja
    rw [hval] at hj
    simp only [Int.toNat_ofNat] at hj
    exact h4 j (by omega) hja

/-- Concrete instantiation of `binsrch_internal_finds_largest_le` on the
three-entry page `[{2}, {5}, {9}]` with key `6`: the result is index 1. -/
theorem binsrch_internal_finds_largest_le_witness :
    0 ≤ zsbt_binsrch_internal 6 [⟨2, 10⟩, ⟨5, 11⟩, ⟨9, 12⟩] ∧
    zsbt_binsrch_internal 6 [⟨2, 10⟩, ⟨5, 11⟩, ⟨9, 12⟩] <
      (([⟨2, 10⟩, ⟨5, 11⟩, ⟨9, 12⟩] : List ZSBtreeInternalPageItem).length : Int) ∧
    (([⟨2, 10⟩, ⟨5, 11⟩, ⟨9, 12⟩] : List ZSBtreeInternalPageItem).getD
        (zsbt_binsrch_internal 6 [⟨2, 10⟩, ⟨5, 11⟩, ⟨9, 12⟩]).toNat ⟨0, 0⟩).tid ≤ 6 ∧
    (∀ j, (zsbt_binsrch_internal 6 [⟨2, 10⟩, ⟨5, 11⟩, ⟨9, 12⟩]).toNat < j →
      j < ([⟨2, 10⟩, ⟨5, 11⟩, ⟨9, 12⟩] : List ZSBtreeInternalPageItem).length →
      6 < (([⟨2, 10⟩, ⟨5, 11⟩, ⟨9, 12⟩] : List ZSBtreeInternalPageItem).getD j ⟨0, 0⟩).tid) :=
  binsrch_internal_finds_largest_le 6 [⟨2, 10⟩, ⟨5, 11⟩, ⟨9, 12⟩]
    (by decide) (by decide) (by decide)

/-! ## Theorems for claim C3: multi-insert array grouping and payload cap -/

/-- C3, evaluation at the failing input: with a fixed-width 2048-byte
attribute, two non-null datums at consecutive TIDs 1 and 2 are grouped by
`zsbt_multi_insert` into one array item whose payload is 4096 bytes — at
least `MaxZedStoreDatumSize / 4 = 1923` — because the size test at
zedstore_btree.c line 2432 breaks the group when the accumulated size stays
BELOW the cap (`<` where the cap requires `>`); for the same reason two small
(4-byte) datums are never grouped and come out as two single items. -/
theorem multi_insert_payload_cap_inverted :
    MaxZedStoreDatumSize / 4 = 1923 ∧
    zsbt_multi_insert_items (fun d => d) ⟨1⟩
        [⟨1, false, 2048⟩, ⟨2, false, 2048⟩] =
      [ZSItem.array 1 2 ⟨1⟩ ⟨false, false, false, false⟩ [2048, 2048]] ∧
    itemPayloadSize (fun d => d)
        (ZSItem.array 1 2 ⟨1⟩ ⟨false, false, false, false⟩ [2048, 2048]) =
      4096 ∧
    zsbt_multi_insert_items (fun d => d) ⟨1⟩
        [⟨1, false, 4⟩, ⟨2, false, 4⟩] =
      [ZSItem.single 1 ⟨1⟩ ⟨false, false, false, false⟩ [4],
       ZSItem.single 2 ⟨1⟩ ⟨false, false, false, false⟩ [4]] := by
  exact ⟨rfl, rfl, rfl, rfl⟩

/-! ## Theorems for claim C10: get_last_tid -/

/-- C10: `zsbt_get_last_tid` returns `MinZSTid` on a completely empty tree,
the rightmost leaf's `lokey` when that leaf holds no items, and one past the
last TID spanned by the rightmost leaf's last item otherwise. -/
theorem get_last_tid_cases (page : LeafPage) :
    zsbt_get_last_tid none = MinZSTid ∧
    (page.items = [] → zsbt_get_last_tid (some page) = page.lokey) ∧
    (∀ firstItems lastItem, page.items = firstItems ++ [lastItem] →
      zsbt_get_last_tid (some page) = zsbt_item_lasttid lastItem + 1) := by
  refine ⟨rfl, ?_, ?_⟩
  · intro h
    simp only [zsbt_get_last_tid, h, List.getLast?]
  · intro firstItems lastItem h
    simp only [zsbt_get_last_tid, h, List.getLast?_concat]

/-- Concrete instantiation of `get_last_tid_cases`: a rightmost leaf whose
last item is an array item spanning TIDs 4..8 yields last TID 9. -/
theorem get_last_tid_cases_witness :
    zsbt_get_last_tid (some ⟨1, 1000, none,
        [ZSItem.single 2 ⟨1⟩ ZSFlags.none [7],
         ZSItem.array 4 5 ⟨2⟩ ZSFlags.none [1, 2, 3, 4, 5]]⟩) =
      zsbt_item_lasttid (ZSItem.array 4 5 ⟨2⟩ ZSFlags.none [1, 2, 3, 4, 5]) + 1 :=
  (get_last_tid_cases _).2.2
    [ZSItem.single 2 ⟨1⟩ ZSFlags.none [7]]
    (ZSItem.array 4 5 ⟨2⟩ ZSFlags.none [1, 2, 3, 4, 5]) rfl

/-! ## Theorems for claim C5: TID assignment monotonicity -/

/-- The entries of a list have consecutive TIDs starting at `t0`. -/
def consecutiveFrom : Nat → List InsEntry → Prop
  | _, [] => True
  | t0, e :: rest => e.tid = t0 ∧ consecutiveFrom (t0 + 1) rest

/-- Dropping `k` entries of a consecutive list leaves a consecutive list. -/
theorem consecutiveFrom_drop :
    ∀ (k : Nat) (l : List InsEntry) (t0 : Nat), consecutiveFrom t0 l →
    consecutiveFrom (t0 + k) (l.drop k) := by
  intro k
  induction k with
  | zero => intro l t0 h; simpa using h
  | succ k ih =>
    intro l t0 h
    match l with
    | [] => simp [consecutiveFrom]
    | e :: rest =>
      have : t0 + (k + 1) = (t0 + 1) + k := by omega
      rw [this]
      exact ih rest (t0 + 1) h.2

/-- The grouping loop never takes more entries than remain. -/
theorem zsbt_multi_insert_group_le (sz : Datum → Nat) (isnull0 : Bool) :
    ∀ (rest : List InsEntry) (prevtid datasz : Nat),
    (zsbt_multi_insert_group sz isnull0 prevtid datasz rest).1 ≤ rest.length := by
  intro rest
  induction rest with
  | nil => intro prevtid datasz; simp [zsbt_multi_insert_group]
  | cons e rest ih =>
    intro prevtid datasz
    simp only [zsbt_multi_insert_group]
    split
    · simp
    · split
      · simp
      · split
        · have := ih e.tid datasz
          simp only [List.length_cons]
          omega
        · split
          · simp
          · have := ih e.tid (datasz + sz e.datum)
            simp only [List.length_cons]
            omega

/-- Every item built by `zsbt_create_item` spans exactly its `nelements`
TIDs and carries no DEAD flag. -/
theorem zsbt_create_item_facts (tid : Nat) (undo : ZSUndoRecPtr)
    (nelements : Nat) (datums : List Datum) (isnull : Bool)
    (hn : 1 ≤ nelements) :
    zsbt_item_lasttid (zsbt_create_item tid undo nelements datums isnull) =
      tid + nelements - 1 ∧
    zsbt_item_isdead (zsbt_create_item tid undo nelements datums isnull) =
      false := by
  unfold zsbt_create_item
  by_cases h : 1 < nelements
  · rw [if_pos h]
    exact ⟨rfl, rfl⟩
  · rw [if_neg h]
    have : nelements = 1 := by omega
    subst this
    exact ⟨rfl, rfl⟩

/-- No item built by the multi-insert item loop is DEAD. -/
theorem multi_insert_items_go_not_dead (sz : Datum → Nat)
    (undo : ZSUndoRecPtr) :
    ∀ (fuel : Nat) (entries : List InsEntry) (it : ZSItem),
    it ∈ zsbt_multi_insert_items_go sz undo fuel entries →
    zsbt_item_isdead it = false := by
  intro fuel
  induction fuel with
  | zero => intro entries it h; simp [zsbt_multi_insert_items_go] at h
  | succ fuel ih =>
    intro entries it h
    match entries with
    | [] => simp [zsbt_multi_insert_items_go] at h
    | e :: rest =>
      simp only [zsbt_multi_insert_items_go, List.mem_cons] at h
      rcases h with h | h
      · subst h
        exact (zsbt_create_item_facts _ _ _ _ _ (by omega)).2
      · exact ih _ _ h

/-- The item loop yields nothing on an empty entry list, for any fuel. -/
theorem multi_insert_items_go_nil (sz : Datum → Nat) (undo : ZSUndoRecPtr)
    (fuel : Nat) : zsbt_multi_insert_items_go sz undo fuel [] = [] := by
  cases fuel <;> rfl

/-- The last item built by the multi-insert loop from a non-empty run of
consecutive TIDs starting at `t0` spans exactly up to the run's last TID. -/
theorem multi_insert_items_go_last (sz : Datum → Nat) (undo : ZSUndoRecPtr) :
    ∀ (fuel : Nat) (entries : List InsEntry) (t0 : Nat), entries ≠ [] →
    entries.length ≤ fuel → consecutiveFrom t0 entries →
    ∃ lastI,
      (zsbt_multi_insert_items_go sz undo fuel entries).getLast? =
        some lastI ∧
      zsbt_item_lasttid lastI = t0 + entries.length - 1 := by
  intro fuel
  induction fuel with
  | zero =>
    intro entries t0 hne hlen
    have : entries = [] := List.length_eq_zero.mp (by omega)
    exact absurd this hne
  | succ fuel ih =>
    intro entries t0 hne hlen hcons
    match entries with
    | [] => exact absurd rfl hne
    | e :: rest =>
      simp only [zsbt_multi_insert_items_go]
      have hk := zsbt_multi_insert_group_le sz e.isnull rest e.tid
        (if e.isnull then 0 else sz e.datum)
      set k := (zsbt_multi_insert_group sz e.isnull e.tid
        (if e.isnull then 0 else sz e.datum) rest).1 with hkdef
      have het : e.tid = t0 := hcons.1
      by_cases hdrop : rest.drop k = []
      · have hkeq : k = rest.length := by
          have := List.length_drop k rest
          rw [hdrop] at this
          simp at this
          omega
        have hitem := zsbt_create_item_facts e.tid undo (k + 1)
          (e.datum :: (rest.take k).map InsEntry.datum) e.isnull (by omega)
        refine ⟨zsbt_create_item e.tid undo (k + 1)
          (e.datum :: (rest.take k).map InsEntry.datum) e.isnull, ?_, ?_⟩
        · rw [hdrop, multi_insert_items_go_nil]
          rfl
        · rw [hitem.1]
          simp only [List.length_cons]
          omega
      · have hconsrest : consecutiveFrom (t0 + 1 + k) (rest.drop k) := by
          exact consecutiveFrom_drop k rest (t0 + 1) (het ▸ hcons.2)
        have hlenrest : (rest.drop k).length ≤ fuel := by
          rw [List.length_drop]
          simp only [List.length_cons] at hlen
          omega
        obtain ⟨lastI, hget, hlast⟩ := ih (rest.drop k) (t0 + 1 + k)
          hdrop hlenrest hconsrest
        have hgone : zsbt_multi_insert_items_go sz undo fuel (rest.drop k) ≠ [] := by
          intro hcon
          rw [hcon] at hget
          simp at hget
        refine ⟨lastI, ?_, ?_⟩
        · match hmm : zsbt_multi_insert_items_go sz undo fuel (rest.drop k) with
          | [] => exact absurd hmm hgone
          | x :: xs =>
            rw [hmm] at hget
            rw [List.getLast?_cons_cons]
            exact hget
        · rw [hlast, List.length_drop]
          simp only [List.length_cons]
          omega

/-- Zipping consecutive TIDs from `List.range'` with rows yields a
consecutive entry list. -/
theorem consecutiveFrom_zipWith_range' :
    ∀ (rows : List (Bool × Datum)) (t0 : Nat),
    consecutiveFrom t0 (List.zipWith (fun t bd => InsEntry.mk t bd.1 bd.2)
      (List.range' t0 rows.length) rows) := by
  intro rows
  induction rows with
  | nil => intro t0; simp [consecutiveFrom]
  | cons bd rest ih =>
    intro t0
    simp only [List.length_cons, List.range'_succ, List.zipWith_cons_cons]
    exact ⟨rfl, ih (t0 + 1)⟩

/-- The last element of an append is the last of the right part when that is
non-empty. -/
theorem getLast?_append_right_ne_nil {α : Type} (l1 l2 : List α)
    (h : l2 ≠ []) : (l1 ++ l2).getLast? = l2.getLast? := by
  induction l1 with
  | nil => rfl
  | cons a t ih =>
    rw [List.cons_append]
    match hm : t ++ l2 with
    | [] =>
      rcases List.append_eq_nil.mp hm with ⟨_, h2⟩
      exact absurd h2 h
    | x :: xs =>
      rw [hm] at ih
      rw [List.getLast?_cons_cons, ih]

/-- A non-DEAD item always survives the recompression filter. -/
theorem recompress_keep_of_not_dead (oldest : ZSUndoRecPtr) (x : ZSItem)
    (h : zsbt_item_isdead x = false) :
    zsbt_recompress_keep oldest x = true := by
  unfold zsbt_recompress_keep
  simp [h]

/-- After a rewrite that appends only non-DEAD new items, the page's last
item is the last new item. -/
theorem getLast?_surviving_append (oldest : ZSUndoRecPtr)
    (old new : List ZSItem)
    (hnew : ∀ x ∈ new, zsbt_item_isdead x = false) (hne : new ≠ []) :
    (zsbt_recompress_surviving oldest (old ++ new)).getLast? =
      new.getLast? := by
  unfold zsbt_recompress_surviving
  rw [List.filter_append]
  rw [List.filter_eq_self.mpr
    (fun x hx => recompress_keep_of_not_dead oldest x (hnew x hx))]
  exact getLast?_append_right_ne_nil _ _ hne

/-- C5: when `zsbt_multi_insert` is called with invalid TIDs, the assigned
TIDs are consecutive starting one past the last TID spanned by the rightmost
leaf's last item (or at the page's `lokey` if that leaf is empty), and across
two sequential calls every TID of the second call is strictly greater than
every TID of the first. -/
theorem multi_insert_sequential_tids_increase
    (sz : Datum → Nat) (u1 u2 o1 o2 : ZSUndoRecPtr) (page : LeafPage)
    (rows1 rows2 : List (Bool × Datum)) (h1 : rows1 ≠ []) :
    (page.items = [] →
      (zsbt_multi_insert_invalid_tids sz u1 o1 page rows1).2 =
        (List.range rows1.length).map (fun i => page.lokey + i)) ∧
    (∀ firstItems lastItem, page.items = firstItems ++ [lastItem] →
      (zsbt_multi_insert_invalid_tids sz u1 o1 page rows1).2 =
        (List.range rows1.length).map
          (fun i => zsbt_item_lasttid lastItem + 1 + i)) ∧
    (∀ t1 ∈ (zsbt_multi_insert_invalid_tids sz u1 o1 page rows1).2,
     ∀ t2 ∈ (zsbt_multi_insert_invalid_tids sz u2 o2
        (zsbt_multi_insert_invalid_tids sz u1 o1 page rows1).1 rows2).2,
      t1 < t2) := by
  have hlen1 : 0 < rows1.length := List.length_pos.mpr h1
  refine ⟨?_, ?_, ?_⟩
  · intro h
    show zsbt_assign_tids page rows1.length = _
    unfold zsbt_assign_tids zsbt_page_next_tid
    rw [h]
    rfl
  · intro firstItems lastItem h
    show zsbt_assign_tids page rows1.length = _
    unfold zsbt_assign_tids zsbt_page_next_tid
    rw [h, List.getLast?_concat]
  · intro t1 ht1 t2 ht2
    have htids1 : (zsbt_multi_insert_invalid_tids sz u1 o1 page rows1).2 =
        (List.range rows1.length).map
          (fun i => zsbt_page_next_tid page + i) := rfl
    -- the entries handed to the item-building loop of call 1
    have hrange : (List.range rows1.length).map
        (fun i => zsbt_page_next_tid page + i) =
        List.range' (zsbt_page_next_tid page) rows1.length := by
      rw [List.range'_eq_map_range]
    have hentlen : (List.zipWith (fun t bd => InsEntry.mk t bd.1 bd.2)
        (zsbt_assign_tids page rows1.length) rows1).length =
        rows1.length := by
      rw [List.length_zipWith]
      unfold zsbt_assign_tids
      simp
    have hentcons : consecutiveFrom (zsbt_page_next_tid page)
        (List.zipWith (fun t bd => InsEntry.mk t bd.1 bd.2)
          (zsbt_assign_tids page rows1.length) rows1) := by
      have := consecutiveFrom_zipWith_range' rows1 (zsbt_page_next_tid page)
      unfold zsbt_assign_tids
      rw [hrange]
      exact this
    obtain ⟨lastI, hget, hlast⟩ := multi_insert_items_go_last sz u1
      (List.zipWith (fun t bd => InsEntry.mk t bd.1 bd.2)
        (zsbt_assign_tids page rows1.length) rows1).length
      (List.zipWith (fun t bd => InsEntry.mk t bd.1 bd.2)
        (zsbt_assign_tids page rows1.length) rows1)
      (zsbt_page_next_tid page)
      (by rw [← List.length_pos, hentlen]; exact hlen1)
      (le_refl _) hentcons
    have hnotdead : ∀ x ∈ zsbt_multi_insert_items sz u1
        (List.zipWith (fun t bd => InsEntry.mk t bd.1 bd.2)
          (zsbt_assign_tids page rows1.length) rows1),
        zsbt_item_isdead x = false := by
      intro x hx
      exact multi_insert_items_go_not_dead sz u1 _ _ x hx
    have hne : zsbt_multi_insert_items sz u1
        (List.zipWith (fun t bd => InsEntry.mk t bd.1 bd.2)
          (zsbt_assign_tids page rows1.length) rows1) ≠ [] := by
      intro hcon
      unfold zsbt_multi_insert_items at hcon
      rw [hcon] at hget
      simp at hget
    have hpage1gl : (zsbt_multi_insert_invalid_tids sz u1 o1 page
        rows1).1.items.getLast? = some lastI := by
      show (zsbt_recompress_surviving o1 _).getLast? = some lastI
      rw [getLast?_surviving_append o1 _ _ hnotdead hne]
      exact hget
    have ht0' : zsbt_page_next_tid
        (zsbt_multi_insert_invalid_tids sz u1 o1 page rows1).1 =
        zsbt_page_next_tid page + rows1.length := by
      have hstep : zsbt_page_next_tid
          (zsbt_multi_insert_invalid_tids sz u1 o1 page rows1).1 =
          zsbt_item_lasttid lastI + 1 := by
        unfold zsbt_page_next_tid
        rw [hpage1gl]
      rw [hstep, hlast, hentlen]
      omega
    have htids2 : (zsbt_multi_insert_invalid_tids sz u2 o2
        (zsbt_multi_insert_invalid_tids sz u1 o1 page rows1).1 rows2).2 =
        (List.range rows2.length).map
          (fun j => zsbt_page_next_tid page + rows1.length + j) := by
      show (List.range rows2.length).map _ = _
      rw [ht0']
    rw [htids1] at ht1
    rw [htids2] at ht2
    simp only [List.mem_map, List.mem_range] at ht1 ht2
    obtain ⟨i, hi, rfl⟩ := ht1
    obtain ⟨j, hj, rfl⟩ := ht2
    omega

/-- Concrete instantiation of `multi_insert_sequential_tids_increase`: two
one-row inserts into an initially empty rightmost leaf with `lokey = 1`. -/
theorem multi_insert_sequential_tids_increase_witness :
    ((⟨1, 1000, none, []⟩ : LeafPage).items = [] →
      (zsbt_multi_insert_invalid_tids (fun d => d) ⟨1⟩ ⟨1⟩
          ⟨1, 1000, none, []⟩ [(false, 10)]).2 =
        (List.range ([(false, (10 : Datum))]).length).map
          (fun i => (⟨1, 1000, none, []⟩ : LeafPage).lokey + i)) ∧
    (∀ firstItems lastItem,
      (⟨1, 1000, none, []⟩ : LeafPage).items = firstItems ++ [lastItem] →
      (zsbt_multi_insert_invalid_tids (fun d => d) ⟨1⟩ ⟨1⟩
          ⟨1, 1000, none, []⟩ [(false, 10)]).2 =
        (List.range ([(false, (10 : Datum))]).length).map
          (fun i => zsbt_item_lasttid lastItem + 1 + i)) ∧
    (∀ t1 ∈ (zsbt_multi_insert_invalid_tids (fun d => d) ⟨1⟩ ⟨1⟩
        ⟨1, 1000, none, []⟩ [(false, 10)]).2,
     ∀ t2 ∈ (zsbt_multi_insert_invalid_tids (fun d => d) ⟨2⟩ ⟨1⟩
        (zsbt_multi_insert_invalid_tids (fun d => d) ⟨1⟩ ⟨1⟩
          ⟨1, 1000, none, []⟩ [(false, 10)]).1 [(false, 20)]).2,
      t1 < t2) :=
  multi_insert_sequential_tids_increase (fun d => d) ⟨1⟩ ⟨2⟩ ⟨1⟩ ⟨1⟩
    ⟨1, 1000, none, []⟩ [(false, 10)] [(false, 20)] (by decide)

/-! ## Theorems for claim C6: splitting an array item around a TID -/

/-- The header fields of an item built by `zsbt_create_item`. -/
theorem zsbt_create_item_fields (tid : Nat) (undo : ZSUndoRecPtr)
    (nelements : Nat) (datums : List Datum) (isnull : Bool) :
    zsbt_item_firsttid (zsbt_create_item tid undo nelements datums isnull) =
      tid ∧
    zsbt_item_undoptr (zsbt_create_item tid undo nelements datums isnull) =
      undo ∧
    zsbt_item_isnull (zsbt_create_item tid undo nelements datums isnull) =
      isnull := by
  unfold zsbt_create_item
  by_cases h : 1 < nelements
  · rw [if_pos h]
    exact ⟨rfl, rfl, rfl⟩
  · rw [if_neg h]
    exact ⟨rfl, rfl, rfl⟩

/-- C6: when a leaf rewrite targets `oldtid` inside the array item
`{tid, nelements, undo, isnull, datums}`, the emitted pieces are exactly the
non-empty ones among the prefix slice `[tid, oldtid)` (present iff
`tid < oldtid`), the replacement at `[oldtid, oldtid]` (present iff a
replacement was given), and the suffix slice `(oldtid, tid + nelements - 1]`
(present iff `oldtid` is below the array's last TID), in TID order; the
prefix and suffix keep the original item's UNDO pointer and null flag and
carry the corresponding element slices. -/
theorem replace_item_array_split_pieces (tid nelements : Nat)
    (undo : ZSUndoRecPtr) (isnull : Bool) (datums : List Datum)
    (oldtid : Nat) (replacementitem : Option ZSItem)
    (hn : 1 ≤ nelements) (hcov1 : tid ≤ oldtid)
    (hcov2 : oldtid ≤ tid + nelements - 1)
    (hrepl : ∀ r, replacementitem = some r →
      zsbt_item_firsttid r = oldtid ∧ zsbt_item_lasttid r = oldtid) :
    zsbt_replace_split_array tid nelements undo isnull datums oldtid
        replacementitem =
      (if tid < oldtid then
          [zsbt_create_item tid undo (oldtid - tid)
            (datums.take (oldtid - tid)) isnull]
        else []) ++
      replacementitem.toList ++
      (if oldtid < tid + nelements - 1 then
          [zsbt_create_item (oldtid + 1) undo (tid + nelements - 1 - oldtid)
            (datums.drop (oldtid - tid + 1)) isnull]
        else []) ∧
    (tid < oldtid →
      zsbt_item_firsttid (zsbt_create_item tid undo (oldtid - tid)
          (datums.take (oldtid - tid)) isnull) = tid ∧
      zsbt_item_lasttid (zsbt_create_item tid undo (oldtid - tid)
          (datums.take (oldtid - tid)) isnull) = oldtid - 1 ∧
      zsbt_item_undoptr (zsbt_create_item tid undo (oldtid - tid)
          (datums.take (oldtid - tid)) isnull) = undo ∧
      zsbt_item_isnull (zsbt_create_item tid undo (oldtid - tid)
          (datums.take (oldtid - tid)) isnull) = isnull) ∧
    (oldtid < tid + nelements - 1 →
      zsbt_item_firsttid (zsbt_create_item (oldtid + 1) undo
          (nelements - (oldtid - tid + 1))
          (datums.drop (oldtid - tid + 1)) isnull) = oldtid + 1 ∧
      zsbt_item_lasttid (zsbt_create_item (oldtid + 1) undo
          (nelements - (oldtid - tid + 1))
          (datums.drop (oldtid - tid + 1)) isnull) = tid + nelements - 1 ∧
      zsbt_item_undoptr (zsbt_create_item (oldtid + 1) undo
          (nelements - (oldtid - tid + 1))
          (datums.drop (oldtid - tid + 1)) isnull) = undo ∧
      zsbt_item_isnull (zsbt_create_item (oldtid + 1) undo
          (nelements - (oldtid - tid + 1))
          (datums.drop (oldtid - tid + 1)) isnull) = isnull) ∧
    List.Chain' (fun a b => zsbt_item_lasttid a < zsbt_item_firsttid b)
      (zsbt_replace_split_array tid nelements undo isnull datums oldtid
        replacementitem) := by
  have hguard1 : (0 < oldtid - tid) = (tid < oldtid) := by
    simp only [eq_iff_iff]
    omega
  have hguard2 : (oldtid - tid + 1 < nelements) = (oldtid < tid + nelements - 1) := by
    simp only [eq_iff_iff]
    omega
  have hcount : nelements - (oldtid - tid + 1) = tid + nelements - 1 - oldtid := by
    omega
  refine ⟨?_, ?_, ?_, ?_⟩
  · unfold zsbt_replace_split_array
    by_cases hpfx : tid < oldtid
    · rw [if_pos (show 0 < oldtid - tid by omega), if_pos hpfx]
      by_cases hsuf : oldtid < tid + nelements - 1
      · rw [if_pos (show oldtid - tid + 1 < nelements by omega), if_pos hsuf,
          hcount]
      · rw [if_neg (show ¬ (oldtid - tid + 1 < nelements) by omega),
          if_neg hsuf]
    · rw [if_neg (show ¬ (0 < oldtid - tid) by omega), if_neg hpfx]
      by_cases hsuf : oldtid < tid + nelements - 1
      · rw [if_pos (show oldtid - tid + 1 < nelements by omega), if_pos hsuf,
          hcount]
      · rw [if_neg (show ¬ (oldtid - tid + 1 < nelements) by omega),
          if_neg hsuf]
  · intro hpfx
    obtain ⟨hf, hu, hnl⟩ := zsbt_create_item_fields tid undo (oldtid - tid)
      (datums.take (oldtid - tid)) isnull
    have hl := (zsbt_create_item_facts tid undo (oldtid - tid)
      (datums.take (oldtid - tid)) isnull (by omega)).1
    exact ⟨hf, by rw [hl]; omega, hu, hnl⟩
  · intro hsuf
    obtain ⟨hf, hu, hnl⟩ := zsbt_create_item_fields (oldtid + 1) undo
      (nelements - (oldtid - tid + 1)) (datums.drop (oldtid - tid + 1)) isnull
    have hl := (zsbt_create_item_facts (oldtid + 1) undo
      (nelements - (oldtid - tid + 1)) (datums.drop (oldtid - tid + 1))
      isnull (by omega)).1
    exact ⟨hf, by rw [hl]; omega, hu, hnl⟩
  · unfold zsbt_replace_split_array
    have hlp := (zsbt_create_item_facts tid undo (oldtid - tid)
      (datums.take (oldtid - tid)) isnull)
    have hfs := zsbt_create_item_fields (oldtid + 1) undo
      (nelements - (oldtid - tid + 1)) (datums.drop (oldtid - tid + 1)) isnull
    by_cases hpfx : 0 < oldtid - tid
    · rw [if_pos hpfx]
      have hlp1 := (hlp (by omega)).1
      by_cases hsuf : oldtid - tid + 1 < nelements
      · rw [if_pos hsuf]
        match replacementitem, hrepl with
        | some r, hrepl =>
          obtain ⟨hrf, hrl⟩ := hrepl r rfl
          simp only [Option.toList_some, List.cons_append, List.nil_append,
            List.chain'_cons, List.chain'_singleton, and_true]
          refine ⟨?_, ?_⟩
          · rw [hlp1, hrf]
            omega
          · rw [hrl, hfs.1]
            omega
        | none, hrepl =>
          simp only [Option.toList_none, List.nil_append, List.cons_append,
            List.chain'_cons, List.chain'_singleton, and_true]
          rw [hlp1, hfs.1]
          omega
      · rw [if_neg hsuf]
        match replacementitem, hrepl with
        | some r, hrepl =>
          obtain ⟨hrf, hrl⟩ := hrepl r rfl
          simp only [Option.toList_some, List.cons_append, List.nil_append,
            List.append_nil, List.chain'_cons, List.chain'_singleton, and_true]
          rw [hlp1, hrf]
          omega
        | none, hrepl =>
          simp
    · rw [if_neg hpfx]
      by_cases hsuf : oldtid - tid + 1 < nelements
      · rw [if_pos hsuf]
        match replacementitem, hrepl with
        | some r, hrepl =>
          obtain ⟨hrf, hrl⟩ := hrepl r rfl
          simp only [Option.toList_some, List.nil_append, List.cons_append,
            List.chain'_cons, List.chain'_singleton, and_true]
          rw [hrl, hfs.1]
          omega
        | none, hrepl =>
          simp
      · rw [if_neg hsuf]
        match replacementitem, hrepl with
        | some r, hrepl => simp
        | none, hrepl => simp

/-- Concrete instantiation of `replace_item_array_split_pieces`: the array
item at TIDs 10..14 rewritten at `oldtid = 12` with a single-item
replacement. -/
theorem replace_item_array_split_pieces_witness :
    zsbt_replace_split_array 10 5 ⟨3⟩ false [100, 101, 102, 103, 104] 12
        (some (ZSItem.single 12 ⟨9⟩ ZSFlags.none [55])) =
      (if 10 < 12 then
          [zsbt_create_item 10 ⟨3⟩ (12 - 10)
            (([100, 101, 102, 103, 104] : List Datum).take (12 - 10)) false]
        else []) ++
      (some (ZSItem.single 12 ⟨9⟩ ZSFlags.none [55])).toList ++
      (if 12 < 10 + 5 - 1 then
          [zsbt_create_item (12 + 1) ⟨3⟩ (10 + 5 - 1 - 12)
            (([100, 101, 102, 103, 104] : List Datum).drop (12 - 10 + 1)) false]
        else []) ∧
    List.Chain' (fun a b => zsbt_item_lasttid a < zsbt_item_firsttid b)
      (zsbt_replace_split_array 10 5 ⟨3⟩ false [100, 101, 102, 103, 104] 12
        (some (ZSItem.single 12 ⟨9⟩ ZSFlags.none [55]))) := by
  have h := replace_item_array_split_pieces 10 5 ⟨3⟩ false
    [100, 101, 102, 103, 104] 12 (some (ZSItem.single 12 ⟨9⟩ ZSFlags.none [55]))
    (by omega) (by omega) (by omega)
    (by intro r hr; cases hr; exact ⟨rfl, rfl⟩)
  exact ⟨h.1, h.2.2.2⟩

/-! ## Theorems for claim C8: missing old item -/

/-- An item that does not cover `oldtid` passes through the rewrite loop
unchanged and unfound. -/
theorem replace_plain_not_found (oldtid : Nat) (repl : Option ZSItem)
    (item : ZSItem) (hcov : itemCoversTidFlat item oldtid = false) :
    zsbt_replace_plain oldtid repl item = ([item], false) := by
  match item with
  | .single tid undo flags datums =>
    simp only [itemCoversTidFlat] at hcov
    simp only [zsbt_replace_plain]
    rw [if_neg]
    intro h
    rw [h.2] at hcov
    simp at hcov
  | .array tid n undo flags datums =>
    simp only [itemCoversTidFlat, Bool.and_eq_false_iff,
      decide_eq_false_iff_not, not_le] at hcov
    simp only [zsbt_replace_plain]
    rw [if_neg]
    intro h
    have h22 := h.2.2
    simp only [zsbt_item_lasttid] at h22
    have h21 := h.2.1
    rcases hcov with hcov | hcov
    · omega
    · omega
  | .compressed t l cs => rfl

/-- When no decompressed item covers `oldtid` and none is itself compressed,
the decompressed pass emits some item list and reports the target unfound. -/
theorem scan_decompressed_not_found (oldtid : Nat) (repl : Option ZSItem) :
    ∀ cs : List ZSItem,
    (∀ c ∈ cs, (match c with
      | ZSItem.compressed _ _ _ => false
      | _ => true) = true) →
    (∀ c ∈ cs, itemCoversTidFlat c oldtid = false) →
    ∃ out, zsbt_replace_scan_decompressed oldtid repl cs = .ok (out, false) := by
  intro cs
  induction cs with
  | nil => intro _ _; exact ⟨[], rfl⟩
  | cons c rest ih =>
    intro hwf hcov
    obtain ⟨out2, hout2⟩ := ih (fun x hx => hwf x (List.mem_cons_of_mem c hx))
      (fun x hx => hcov x (List.mem_cons_of_mem c hx))
    have hplain := replace_plain_not_found oldtid repl c
      (hcov c (List.mem_cons_self c rest))
    match c with
    | .compressed t l cs' =>
      have := hwf _ (List.mem_cons_self _ rest)
      simp at this
    | .single tid undo flags datums =>
      refine ⟨ZSItem.single tid undo flags datums :: out2, ?_⟩
      simp only [zsbt_replace_scan_decompressed]
      rw [hout2, hplain]
      rfl
    | .array tid n undo flags datums =>
      refine ⟨ZSItem.array tid n undo flags datums :: out2, ?_⟩
      simp only [zsbt_replace_scan_decompressed]
      rw [hout2, hplain]
      rfl

/-- When no page item (looking inside compressed containers) covers
`oldtid`, the page pass succeeds with the target unfound. -/
theorem scan_page_not_found (oldtid : Nat) (repl : Option ZSItem) :
    ∀ pageItems : List ZSItem,
    noNestedCompressed pageItems = true →
    (∀ it ∈ pageItems, itemCoversTid it oldtid = false) →
    ∃ out, zsbt_replace_scan_page oldtid repl pageItems = .ok (out, false) := by
  intro pageItems
  induction pageItems with
  | nil => intro _ _; exact ⟨[], rfl⟩
  | cons item rest ih =>
    intro hwf hcov
    have hwfrest : noNestedCompressed rest = true := by
      unfold noNestedCompressed at hwf ⊢
      rw [List.all_cons] at hwf
      exact (Bool.and_eq_true_iff.mp hwf).2
    obtain ⟨out2, hout2⟩ := ih hwfrest
      (fun x hx => hcov x (List.mem_cons_of_mem item hx))
    have hcovhd := hcov item (List.mem_cons_self item rest)
    match item with
    | .compressed t l cs =>
      by_cases hrange : oldtid ≠ InvalidZSTid ∧ t ≤ oldtid ∧ oldtid ≤ l
      · have hcontents : ∀ c ∈ cs, itemCoversTidFlat c oldtid = false := by
          simp only [itemCoversTid, Bool.and_eq_false_iff,
            decide_eq_false_iff_not, not_le, List.any_eq_false] at hcovhd
          rcases hcovhd with (hc | hc) | hc
          · omega
          · omega
          · intro c hcmem
            simpa using hc c hcmem
        have hwfcs : ∀ c ∈ cs, (match c with
            | ZSItem.compressed _ _ _ => false
            | _ => true) = true := by
          unfold noNestedCompressed at hwf
          rw [List.all_cons] at hwf
          have := (Bool.and_eq_true_iff.mp hwf).1
          simp only [List.all_eq_true] at this
          exact this
        obtain ⟨out1, hout1⟩ := scan_decompressed_not_found oldtid repl cs
          hwfcs hcontents
        refine ⟨out1 ++ out2, ?_⟩
        simp only [zsbt_replace_scan_page]
        rw [if_pos hrange, hout1, hout2]
        rfl
      · refine ⟨ZSItem.compressed t l cs :: out2, ?_⟩
        simp only [zsbt_replace_scan_page]
        rw [if_neg hrange, hout2]
    | .single tid undo flags datums =>
      have hplain := replace_plain_not_found oldtid repl
        (.single tid undo flags datums) hcovhd
      refine ⟨ZSItem.single tid undo flags datums :: out2, ?_⟩
      simp only [zsbt_replace_scan_page]
      rw [hout2, hplain]
      rfl
    | .array tid n undo flags datums =>
      have hplain := replace_plain_not_found oldtid repl
        (.array tid n undo flags datums) hcovhd
      refine ⟨ZSItem.array tid n undo flags datums :: out2, ?_⟩
      simp only [zsbt_replace_scan_page]
      rw [hout2, hplain]
      rfl

/-- C8: when a leaf rewrite is invoked with a valid old TID and no item on
the page — items inside decompressed compressed containers included — covers
that TID, `zsbt_replace_item` signals the missing-old-item error and produces
no rewritten item list. -/
theorem replace_item_missing_old_item_error (oldtid : Nat)
    (repl : Option ZSItem) (newitems pageItems : List ZSItem)
    (hvalid : oldtid ≠ InvalidZSTid)
    (hwf : noNestedCompressed pageItems = true)
    (hnone : ∀ it ∈ pageItems, itemCoversTid it oldtid = false) :
    zsbt_replace_item oldtid repl newitems pageItems =
      .error "could not find old item to replace" := by
  obtain ⟨out, hout⟩ := scan_page_not_found oldtid repl pageItems hwf hnone
  unfold zsbt_replace_item
  rw [hout]
  exact if_pos ⟨hvalid, rfl⟩

/-- Concrete instantiation of `replace_item_missing_old_item_error`:
rewriting at TID 4 on a page holding a single item at TID 3 and a compressed
container spanning `[5, 9]` whose contents cover TIDs 5..7 and 9. -/
theorem replace_item_missing_old_item_error_witness :
    zsbt_replace_item 4 none []
        [ZSItem.single 3 ⟨1⟩ ZSFlags.none [30],
         ZSItem.compressed 5 9
           [ZSItem.array 5 3 ⟨2⟩ ZSFlags.none [50, 60, 70],
            ZSItem.single 9 ⟨3⟩ ZSFlags.none [90]]] =
      .error "could not find old item to replace" :=
  replace_item_missing_old_item_error 4 none []
    [ZSItem.single 3 ⟨1⟩ ZSFlags.none [30],
     ZSItem.compressed 5 9
       [ZSItem.array 5 3 ⟨2⟩ ZSFlags.none [50, 60, 70],
        ZSItem.single 9 ⟨3⟩ ZSFlags.none [90]]]
    (by decide) (by decide)
    (by
      intro it hit
      simp only [List.mem_cons, List.mem_singleton] at hit
      rcases hit with h | h | h
      · subst h; rfl
      · subst h; rfl
      · exact absurd h (List.not_mem_nil it))

/-! ## Theorems for claim C7: scan TID stream -/

/-- C7, evaluation at the failing input: scanning `[1, 100)` over a leaf
whose only item is a fully visible array item spanning TIDs 5..10 (a gap
before it, as left by deleted-and-elided items), the scan yields the ten
TIDs 1..10 instead of the six TIDs 5..10 of the existing tuples: because
`zsbt_scan_extract_array` never advances `scan->nexttid` to the array's
first extracted TID (the single-item paths at lines 2127 and 2221 do),
`zsbt_scan_next_tid` hands out `nexttid++` starting at 1, and the first
`zsbt_scan_next` call reports a current tuple at `nexttid = 1` whose datum
buffer is the payload stored for TIDs 5..10.  TIDs 1..4 are covered by no
item, so the yielded tuples at those TIDs do not exist, visible or not. -/
theorem scan_yields_phantom_tids_before_array :
    zsbt_scan_collect_tids (fun _ => true) 40
        (zsbt_begin_scan_state
          [⟨1, 100, none,
            [ZSItem.array 5 6 ⟨1⟩ ZSFlags.none [50, 51, 52, 53, 54, 55]]⟩]
          1 100) =
      [1, 2, 3, 4, 5, 6, 7, 8, 9, 10] ∧
    (zsbt_scan_next (fun _ => true) 40
        (zsbt_begin_scan_state
          [⟨1, 100, none,
            [ZSItem.array 5 6 ⟨1⟩ ZSFlags.none [50, 51, 52, 53, 54, 55]]⟩]
          1 100)).1 = true ∧
    (zsbt_scan_next (fun _ => true) 40
        (zsbt_begin_scan_state
          [⟨1, 100, none,
            [ZSItem.array 5 6 ⟨1⟩ ZSFlags.none [50, 51, 52, 53, 54, 55]]⟩]
          1 100)).2.nexttid = 1 ∧
    (zsbt_scan_next (fun _ => true) 40
        (zsbt_begin_scan_state
          [⟨1, 100, none,
            [ZSItem.array 5 6 ⟨1⟩ ZSFlags.none [50, 51, 52, 53, 54, 55]]⟩]
          1 100)).2.arrayDatums = [50, 51, 52, 53, 54, 55] ∧
    (∀ t, t ∈ [1, 2, 3, 4] →
      itemCoversTid (ZSItem.array 5 6 ⟨1⟩ ZSFlags.none [50, 51, 52, 53, 54, 55])
        t = false) := by
  refine ⟨rfl, rfl, rfl, rfl, ?_⟩
  decide

end ZedStore
